import Mathlib

/-!
Shallow embedding of `monitor.py` (class `SeoulMetroMonitor`), a single-run
board monitor: fetch board HTML, parse rows into posts, filter posts dated
today whose titles contain a configured keyword, and send a webhook per match.

Modelling conventions:
* Python strings are Lean `String`s; operations (`in`, `lower`, `strip`,
  `isdigit`, `startswith`, `len`) are re-implemented over `String.data`
  (the underlying `List Char`) so that everything is kernel-evaluable.
* External effects are parameters: the current date (`datetime.now`
  formatted `%Y-%m-%d`) is a `today : String` argument; HTTP calls are an
  `HttpResult` value (status/body, or a raised transport exception);
  BeautifulSoup's row selection is a function `String → List (List Cell)`
  producing, per row, the cells (`find_all(['td','th'])`) with each cell's
  stripped-text content and the `href` of its first anchor, if any.
-/

/-- Python `needle in hay` on lists of characters: `nd` occurs as a
contiguous sublist of `hay`. -/
def containsList (nd : List Char) : List Char → Bool
  | [] => nd.isEmpty
  | c :: t => List.isPrefixOf nd (c :: t) || containsList nd t

/-- Python `needle in hay` for strings (substring containment). -/
def strIncludes (hay nd : String) : Bool := containsList nd.data hay.data

/-- Python `s.lower()` (ASCII case folding; the configured keywords and the
board titles in scope are caseless Korean, on which both agree). -/
def lowerString (s : String) : String := ⟨s.data.map Char.toLower⟩

/-- Python `s.strip()`: drop leading and trailing whitespace. -/
def stripString (s : String) : String :=
  ⟨((s.data.dropWhile Char.isWhitespace).reverse.dropWhile Char.isWhitespace).reverse⟩

/-- Python `s.isdigit()`: nonempty and all characters are digits. -/
def isDigitString (s : String) : Bool := !s.data.isEmpty && s.data.all Char.isDigit

/-- Python `s.startswith(pre)`. -/
def strStarts (s pre : String) : Bool := List.isPrefixOf pre.data s.data

/-- Python `c in s` for a single character. -/
def strHasChar (s : String) (c : Char) : Bool := s.data.contains c

/-- One parsed board entry, as the dict `{'title': …, 'date': …, 'link': …}`
appended by `parse_board_posts`. -/
structure Post where
  title : String
  date : String
  link : String
deriving DecidableEq, Repr

/-- One table cell (`td`/`th`) of a board row: its stripped text content
(`get_text(strip=True)` is modelled as stripping the raw text) and the
`href` attribute of the first anchor inside it (`cell.find('a')`),
`none` when there is no anchor or the anchor has no `href`. -/
structure Cell where
  text : String
  href : Option String
deriving DecidableEq, Repr

/-- `self.keywords` from `SeoulMetroMonitor.__init__`. -/
def keywords : List String := ["특정 장애인 단체 집회시위", "장애인", "집회", "시위"]

/-- `self.url`'s origin, prefixed to relative hrefs in `parse_board_posts`. -/
def baseUrl : String := "http://www.seoulmetro.co.kr"

/-- `keyword.lower() in title_lower` for one keyword of the loop in
`check_keywords`. -/
def kwMatches (title k : String) : Bool :=
  strIncludes (lowerString title) (lowerString k)

/-- The `for keyword in self.keywords` loop of `check_keywords`, over the
already-lowercased title. -/
def checkKeywordsAux (titleLower : String) : List String → Bool × Option String
  | [] => (false, none)
  | k :: rest =>
    if strIncludes titleLower (lowerString k) then (true, some k)
    else checkKeywordsAux titleLower rest

/-- `check_keywords(title)`: first configured keyword whose lowercased form
is a substring of the lowercased title, or `(False, None)`. -/
def check_keywords (title : String) : Bool × Option String :=
  checkKeywordsAux (lowerString title) keywords

/-- `is_today_post(date_str)`: `today in date_str`, where `today` is
`datetime.now().strftime('%Y-%m-%d')`, passed explicitly. The `except`
branch is dead in the model (substring test cannot raise). -/
def is_today_post (today date_str : String) : Bool := strIncludes date_str today

/-- `datetime.now().strftime('%Y-%m-%d')` always produces this shape:
four digits, `-`, two digits, `-`, two digits. -/
def isDateFormat (s : String) : Bool :=
  match s.data with
  | [a, b, c, d, s1, e, f, s2, g, h] =>
    a.isDigit && b.isDigit && c.isDigit && d.isDigit && s1 == '-' &&
    e.isDigit && f.isDigit && s2 == '-' && g.isDigit && h.isDigit
  | _ => false

/-- The stripped text of a cell, `cell.get_text(strip=True)`. -/
def cellText (c : Cell) : String := stripString c.text

/-- The link computed for the chosen title cell: if the cell has an anchor
with a truthy (nonempty) `href`, resolve it (prefix `baseUrl` unless it
starts with `"http"`); otherwise `link` stays `""`. -/
def linkFromCell (c : Cell) : String :=
  match c.href with
  | some href =>
    if href ≠ "" then
      if strStarts href "http" then href else baseUrl ++ href
    else ""
  | none => ""

/-- Does a cell qualify as the title cell (`len(cell_text) > 5 and not
cell_text.isdigit()`)? -/
def titleCellOk (c : Cell) : Bool :=
  decide ((cellText c).length > 5) && !isDigitString (cellText c)

/-- The `for i, cell in enumerate(cells)` title-extraction loop of
`parse_board_posts`: first qualifying cell gives the title (its stripped
text) and the link taken from that cell; `none` when no cell qualifies
(`if not title: continue`). -/
def findTitleLink : List Cell → Option (String × String)
  | [] => none
  | c :: rest =>
    if titleCellOk c then some (cellText c, linkFromCell c)
    else findTitleLink rest

/-- Does a cell qualify as the date cell (contains one of `-` `.` `/` and has
stripped length ≥ 8)? In the source the separator test guards an inner
length test, and only the conjunction breaks the loop. -/
def dateCellOk (c : Cell) : Bool :=
  (strHasChar (cellText c) '-' || strHasChar (cellText c) '.' ||
    strHasChar (cellText c) '/') && decide ((cellText c).length ≥ 8)

/-- The `for cell in reversed(cells)` date-extraction loop of
`parse_board_posts`, over an already-reversed cell list. -/
def findDate : List Cell → Option String
  | [] => none
  | c :: rest => if dateCellOk c then some (cellText c) else findDate rest

/-- The per-row body of `parse_board_posts`: rows with fewer than 3 cells
are skipped, rows without a qualifying title cell are skipped, and the date
defaults to today's `YYYY-MM-DD` string when no cell qualifies. -/
def parseRow (today : String) (cells : List Cell) : Option Post :=
  if cells.length ≥ 3 then
    match findTitleLink cells with
    | none => none
    | some (title, link) =>
      let date :=
        match findDate cells.reverse with
        | some d => d
        | none => today
      some ⟨title, date, link⟩
  else none

/-- `parse_board_posts(html_content)` after BeautifulSoup row selection:
the row loop, appending one post per surviving row. (The selector-fallback
chain and the `if not html_content` guard live in `monitor_posts`'s model,
which feeds this function the selected rows.) -/
def parse_board_posts (today : String) (rows : List (List Cell)) : List Post :=
  rows.filterMap (parseRow today)

/-- The claim-side reading of the title-cell heuristic: stripped text longer
than 5 characters and not purely numeric. -/
def TitleQual (c : Cell) : Prop :=
  (cellText c).length > 5 ∧ isDigitString (cellText c) = false

/-- The claim-side reading of the date-cell heuristic: stripped text
containing one of `-` `.` `/`, of length at least 8. -/
def DateQual (c : Cell) : Prop :=
  (strHasChar (cellText c) '-' = true ∨ strHasChar (cellText c) '.' = true ∨
    strHasChar (cellText c) '/' = true) ∧ (cellText c).length ≥ 8

/-- Outcome of one `requests.get`/`requests.post` call: a response with a
status code and body text, or a raised transport exception. -/
inductive HttpResult where
  | response (status : Nat) (body : String)
  | exn
deriving DecidableEq, Repr

/-- `fetch_board_content()`: the body on HTTP 200, `None` on any other
status or on an exception. -/
def fetch_board_content (r : HttpResult) : Option String :=
  match r with
  | .response status body => if status == 200 then some body else none
  | .exn => none

/-- The JSON payload built by `send_webhook` (`now` is
`datetime.now().isoformat()`). -/
structure NotificationPayload where
  title : String
  date : String
  link : String
  keyword : String
  message : String
  timestamp : String
deriving DecidableEq, Repr

def buildPayload (now : String) (post : Post) (kw : String) : NotificationPayload :=
  ⟨post.title, post.date, post.link, kw,
    "키워드 '" ++ kw ++ "' 매칭: " ++ post.title, now⟩

/-- `send_webhook(post_info, matched_keyword)`: true iff the POST returns
status 200; any other status, or a transport exception, gives false. -/
def send_webhook (post : Post) (kw : String) (r : HttpResult) : Bool :=
  match r with
  | .response status _ => status == 200
  | .exn => false

/-- Observable outcome of the post-filtering loop of `monitor_posts`:
the posts handed to `check_keywords`, the `(post, keyword)` pairs handed to
`send_webhook` (the webhook POSTs issued), and the two counters. -/
structure MonitorResult where
  matcherCalls : List Post
  webhookCalls : List (Post × String)
  todayPostsCount : Nat
  notificationsSent : Nat
deriving DecidableEq, Repr

/-- The empty outcome: no matcher calls, no webhook calls, zero counts. -/
def noRun : MonitorResult := ⟨[], [], 0, 0⟩

/-- The `for post in posts` loop of `monitor_posts`: posts failing
`is_today_post` are skipped before any keyword check; matching posts
trigger one webhook send each, whose outcome `webhook post kw` feeds the
sent counter. -/
def processPosts (today : String) (webhook : Post → String → HttpResult) :
    List Post → MonitorResult
  | [] => noRun
  | p :: rest =>
    if is_today_post today p.date then
      match check_keywords p.title with
      | (true, some kw) =>
        let ok := send_webhook p kw (webhook p kw)
        let r := processPosts today webhook rest
        ⟨p :: r.matcherCalls, (p, kw) :: r.webhookCalls,
          r.todayPostsCount + 1,
          (if ok then 1 else 0) + r.notificationsSent⟩
      | _ =>
        let r := processPosts today webhook rest
        ⟨p :: r.matcherCalls, r.webhookCalls, r.todayPostsCount + 1,
          r.notificationsSent⟩
    else processPosts today webhook rest

/-- `monitor_posts()`: fetch, abort on missing/empty content (`if not
html_content`), parse (`extractRows` models BeautifulSoup row selection),
abort on an empty post list, then run the filtering loop. -/
def monitor_posts (today : String) (fetched : HttpResult)
    (extractRows : String → List (List Cell))
    (webhook : Post → String → HttpResult) : MonitorResult :=
  match fetch_board_content fetched with
  | none => noRun
  | some html =>
    if html = "" then noRun
    else
      let posts := parse_board_posts today (extractRows html)
      if posts.isEmpty then noRun
      else processPosts today webhook posts

/-- Outcome of the `__main__` block: the process exit code, and the monitor
outcome when the monitor ran (`none` when the process exited at startup). -/
structure MainResult where
  exitCode : Nat
  monitorOutcome : Option MonitorResult
deriving DecidableEq, Repr

/-- The `__main__` block: read `WEBHOOK_URL` from the environment (`none`
models an unset variable), `exit(1)` when it is falsy (unset or empty),
otherwise run `monitor_posts` and finish with exit code 0. -/
def mainRun (today : String) (webhookUrlEnv : Option String)
    (fetched : HttpResult) (extractRows : String → List (List Cell))
    (webhook : Post → String → HttpResult) : MainResult :=
  match webhookUrlEnv with
  | none => ⟨1, none⟩
  | some url =>
    if url = "" then ⟨1, none⟩
    else ⟨0, some (monitor_posts today fetched extractRows webhook)⟩

/-! ### Characterizations of the string helpers -/

theorem isPrefixOf_eq_true (l₁ l₂ : List Char) :
    List.isPrefixOf l₁ l₂ = true ↔ ∃ t, l₂ = l₁ ++ t := by
  induction l₁ generalizing l₂ with
  | nil => simp [List.isPrefixOf]
  | cons a as ih =>
    cases l₂ with
    | nil => simp [List.isPrefixOf]
    | cons b bs =>
      simp only [List.isPrefixOf, Bool.and_eq_true, beq_iff_eq, ih,
        List.cons_append, List.cons.injEq]
      constructor
      · rintro ⟨rfl, t, rfl⟩
        exact ⟨t, rfl, rfl⟩
      · rintro ⟨t, rfl, rfl⟩
        exact ⟨rfl, t, rfl⟩

theorem containsList_iff (nd hay : List Char) :
    containsList nd hay = true ↔ ∃ l₁ l₂, hay = l₁ ++ nd ++ l₂ := by
  induction hay with
  | nil =>
    simp only [containsList, List.isEmpty_iff]
    constructor
    · rintro rfl; exact ⟨[], [], rfl⟩
    · rintro ⟨l₁, l₂, h⟩
      rcases List.append_eq_nil.mp (List.append_eq_nil.mp h.symm).1 with ⟨-, h₂⟩
      exact h₂
  | cons c t ih =>
    simp only [containsList, Bool.or_eq_true, isPrefixOf_eq_true, ih]
    constructor
    · rintro (⟨s, hs⟩ | ⟨l₁, l₂, h⟩)
      · exact ⟨[], s, by simp [hs]⟩
      · exact ⟨c :: l₁, l₂, by simp [h]⟩
    · rintro ⟨l₁, l₂, h⟩
      match l₁, h with
      | [], h => exact Or.inl ⟨l₂, by simpa using h⟩
      | x :: xs, h =>
        simp only [List.cons_append, List.cons.injEq] at h
        exact Or.inr ⟨xs, l₂, h.2⟩

theorem strIncludes_iff (hay nd : String) :
    strIncludes hay nd = true ↔ ∃ l₁ l₂, hay.data = l₁ ++ nd.data ++ l₂ :=
  containsList_iff nd.data hay.data

/-! ### First-match behaviour of the keyword loop -/

theorem checkKeywordsAux_cons_pos (tl k₀ : String) (rest : List String)
    (h : strIncludes tl (lowerString k₀) = true) :
    checkKeywordsAux tl (k₀ :: rest) = (true, some k₀) := by
  simp only [checkKeywordsAux]
  rw [if_pos h]

theorem checkKeywordsAux_cons_neg (tl k₀ : String) (rest : List String)
    (h : strIncludes tl (lowerString k₀) = false) :
    checkKeywordsAux tl (k₀ :: rest) = checkKeywordsAux tl rest := by
  simp only [checkKeywordsAux]
  rw [if_neg (by simp [h])]

theorem checkKeywordsAux_eq_true (tl : String) (ks : List String) (k : String) :
    checkKeywordsAux tl ks = (true, some k) ↔
      ∃ l₁ l₂, ks = l₁ ++ k :: l₂ ∧ strIncludes tl (lowerString k) = true ∧
        ∀ k' ∈ l₁, strIncludes tl (lowerString k') = false := by
  induction ks with
  | nil =>
    constructor
    · intro h; exact absurd h (by simp [checkKeywordsAux])
    · rintro ⟨l₁, l₂, h, -, -⟩; exact absurd h (by simp)
  | cons k₀ rest ih =>
    by_cases h : strIncludes tl (lowerString k₀) = true
    · rw [checkKeywordsAux_cons_pos tl k₀ rest h]
      constructor
      · intro heq
        have hk : k = k₀ := by
          have := heq.symm
          simp only [Prod.mk.injEq, Option.some.injEq, true_and] at this
          exact this
        exact ⟨[], rest, by rw [hk, List.nil_append], hk ▸ h, by simp⟩
      · rintro ⟨l₁, l₂, hks, hm, hall⟩
        match l₁, hks with
        | [], hks =>
          simp only [List.nil_append, List.cons.injEq] at hks
          rw [hks.1]
        | x :: xs, hks =>
          simp only [List.cons_append, List.cons.injEq] at hks
          exact absurd h (by rw [hks.1]; simp [hall x (by simp)])
    · have h' : strIncludes tl (lowerString k₀) = false := by simpa using h
      rw [checkKeywordsAux_cons_neg tl k₀ rest h', ih]
      constructor
      · rintro ⟨l₁, l₂, rfl, hm, hall⟩
        refine ⟨k₀ :: l₁, l₂, rfl, hm, ?_⟩
        intro k' hk'
        rcases List.mem_cons.mp hk' with rfl | hk'
        · exact h'
        · exact hall k' hk'
      · rintro ⟨l₁, l₂, hks, hm, hall⟩
        match l₁, hks with
        | [], hks =>
          simp only [List.nil_append, List.cons.injEq] at hks
          exact absurd hm (by rw [← hks.1]; simp [h'])
        | x :: xs, hks =>
          simp only [List.cons_append, List.cons.injEq] at hks
          exact ⟨xs, l₂, hks.2, hm, fun k' hk' => hall k' (by simp [hk'])⟩

theorem checkKeywordsAux_eq_false (tl : String) (ks : List String) :
    checkKeywordsAux tl ks = (false, none) ↔
      ∀ k ∈ ks, strIncludes tl (lowerString k) = false := by
  induction ks with
  | nil => simp [checkKeywordsAux]
  | cons k₀ rest ih =>
    by_cases h : strIncludes tl (lowerString k₀) = true
    · rw [checkKeywordsAux_cons_pos tl k₀ rest h]
      simp [h]
    · have h' : strIncludes tl (lowerString k₀) = false := by simpa using h
      rw [checkKeywordsAux_cons_neg tl k₀ rest h']
      simp [h', ih]

theorem checkKeywordsAux_shape (tl : String) (ks : List String) :
    checkKeywordsAux tl ks = (false, none) ∨
      ∃ k, checkKeywordsAux tl ks = (true, some k) := by
  induction ks with
  | nil => exact Or.inl rfl
  | cons k₀ rest ih =>
    by_cases h : strIncludes tl (lowerString k₀) = true
    · exact Or.inr ⟨k₀, checkKeywordsAux_cons_pos tl k₀ rest h⟩
    · have h' : strIncludes tl (lowerString k₀) = false := by simpa using h
      rw [checkKeywordsAux_cons_neg tl k₀ rest h']
      exact ih

/-! ### First-match behaviour of the parser scans -/

theorem findTitleLink_cons_pos (c₀ : Cell) (rest : List Cell)
    (h : titleCellOk c₀ = true) :
    findTitleLink (c₀ :: rest) = some (cellText c₀, linkFromCell c₀) := by
  simp only [findTitleLink]
  rw [if_pos h]

theorem findTitleLink_cons_neg (c₀ : Cell) (rest : List Cell)
    (h : titleCellOk c₀ = false) :
    findTitleLink (c₀ :: rest) = findTitleLink rest := by
  simp only [findTitleLink]
  rw [if_neg (by simp [h])]

theorem findTitleLink_eq_some (cells : List Cell) (t l : String) :
    findTitleLink cells = some (t, l) ↔
      ∃ l₁ c l₂, cells = l₁ ++ c :: l₂ ∧ titleCellOk c = true ∧
        (∀ c' ∈ l₁, titleCellOk c' = false) ∧ t = cellText c ∧
        l = linkFromCell c := by
  induction cells with
  | nil =>
    constructor
    · intro h; exact absurd h (by simp [findTitleLink])
    · rintro ⟨l₁, c, l₂, h, -⟩; exact absurd h (by simp)
  | cons c₀ rest ih =>
    by_cases h : titleCellOk c₀ = true
    · rw [findTitleLink_cons_pos c₀ rest h]
      constructor
      · intro heq
        have hk : cellText c₀ = t ∧ linkFromCell c₀ = l := by
          have := heq
          simp only [Option.some.injEq, Prod.mk.injEq] at this
          exact this
        exact ⟨[], c₀, rest, by rw [List.nil_append], h, by simp, hk.1.symm,
          hk.2.symm⟩
      · rintro ⟨l₁, c, l₂, hks, hc, hall, rfl, rfl⟩
        match l₁, hks with
        | [], hks =>
          simp only [List.nil_append, List.cons.injEq] at hks
          rw [hks.1]
        | x :: xs, hks =>
          simp only [List.cons_append, List.cons.injEq] at hks
          exact absurd h (by rw [hks.1]; simp [hall x (by simp)])
    · have h' : titleCellOk c₀ = false := by simpa using h
      rw [findTitleLink_cons_neg c₀ rest h', ih]
      constructor
      · rintro ⟨l₁, c, l₂, rfl, hc, hall, ht, hl⟩
        refine ⟨c₀ :: l₁, c, l₂, rfl, hc, ?_, ht, hl⟩
        intro c' hc'
        rcases List.mem_cons.mp hc' with rfl | hc'
        · exact h'
        · exact hall c' hc'
      · rintro ⟨l₁, c, l₂, hks, hc, hall, ht, hl⟩
        match l₁, hks with
        | [], hks =>
          simp only [List.nil_append, List.cons.injEq] at hks
          exact absurd hc (by rw [← hks.1]; simp [h'])
        | x :: xs, hks =>
          simp only [List.cons_append, List.cons.injEq] at hks
          exact ⟨xs, c, l₂, hks.2, hc, fun c' hc' => hall c' (by simp [hc']),
            ht, hl⟩

theorem findTitleLink_eq_none (cells : List Cell) :
    findTitleLink cells = none ↔ ∀ c ∈ cells, titleCellOk c = false := by
  induction cells with
  | nil => simp [findTitleLink]
  | cons c₀ rest ih =>
    by_cases h : titleCellOk c₀ = true
    · rw [findTitleLink_cons_pos c₀ rest h]
      simp [h]
    · have h' : titleCellOk c₀ = false := by simpa using h
      rw [findTitleLink_cons_neg c₀ rest h']
      simp [h', ih]

theorem findDate_cons_pos (c₀ : Cell) (rest : List Cell)
    (h : dateCellOk c₀ = true) :
    findDate (c₀ :: rest) = some (cellText c₀) := by
  simp only [findDate]
  rw [if_pos h]

theorem findDate_cons_neg (c₀ : Cell) (rest : List Cell)
    (h : dateCellOk c₀ = false) :
    findDate (c₀ :: rest) = findDate rest := by
  simp only [findDate]
  rw [if_neg (by simp [h])]

theorem findDate_eq_some (cells : List Cell) (d : String) :
    findDate cells = some d ↔
      ∃ l₁ c l₂, cells = l₁ ++ c :: l₂ ∧ dateCellOk c = true ∧
        (∀ c' ∈ l₁, dateCellOk c' = false) ∧ d = cellText c := by
  induction cells with
  | nil =>
    constructor
    · intro h; exact absurd h (by simp [findDate])
    · rintro ⟨l₁, c, l₂, h, -⟩; exact absurd h (by simp)
  | cons c₀ rest ih =>
    by_cases h : dateCellOk c₀ = true
    · rw [findDate_cons_pos c₀ rest h]
      constructor
      · intro heq
        have hd : cellText c₀ = d := by
          have := heq
          simp only [Option.some.injEq] at this
          exact this
        exact ⟨[], c₀, rest, by rw [List.nil_append], h, by simp, hd.symm⟩
      · rintro ⟨l₁, c, l₂, hks, hc, hall, rfl⟩
        match l₁, hks with
        | [], hks =>
          simp only [List.nil_append, List.cons.injEq] at hks
          rw [hks.1]
        | x :: xs, hks =>
          simp only [List.cons_append, List.cons.injEq] at hks
          exact absurd h (by rw [hks.1]; simp [hall x (by simp)])
    · have h' : dateCellOk c₀ = false := by simpa using h
      rw [findDate_cons_neg c₀ rest h', ih]
      constructor
      · rintro ⟨l₁, c, l₂, rfl, hc, hall, hd⟩
        refine ⟨c₀ :: l₁, c, l₂, rfl, hc, ?_, hd⟩
        intro c' hc'
        rcases List.mem_cons.mp hc' with rfl | hc'
        · exact h'
        · exact hall c' hc'
      · rintro ⟨l₁, c, l₂, hks, hc, hall, hd⟩
        match l₁, hks with
        | [], hks =>
          simp only [List.nil_append, List.cons.injEq] at hks
          exact absurd hc (by rw [← hks.1]; simp [h'])
        | x :: xs, hks =>
          simp only [List.cons_append, List.cons.injEq] at hks
          exact ⟨xs, c, l₂, hks.2, hc, fun c' hc' => hall c' (by simp [hc']),
            hd⟩

theorem findDate_eq_none (cells : List Cell) :
    findDate cells = none ↔ ∀ c ∈ cells, dateCellOk c = false := by
  induction cells with
  | nil => simp [findDate]
  | cons c₀ rest ih =>
    by_cases h : dateCellOk c₀ = true
    · rw [findDate_cons_pos c₀ rest h]
      simp [h]
    · have h' : dateCellOk c₀ = false := by simpa using h
      rw [findDate_cons_neg c₀ rest h']
      simp [h', ih]

/-! ### Row-level behaviour of `parse_board_posts` -/

theorem parseRow_short (today : String) (cells : List Cell)
    (h : cells.length < 3) : parseRow today cells = none := by
  simp only [parseRow]
  rw [if_neg (by omega)]

theorem parseRow_noTitle (today : String) (cells : List Cell)
    (h : findTitleLink cells = none) : parseRow today cells = none := by
  by_cases h3 : cells.length ≥ 3
  · simp only [parseRow]
    rw [if_pos h3, h]
  · exact parseRow_short today cells (by omega)

theorem parseRow_some_elim (today : String) (cells : List Cell) (p : Post)
    (h : parseRow today cells = some p) :
    cells.length ≥ 3 ∧
      ∃ t l, findTitleLink cells = some (t, l) ∧ p.title = t ∧ p.link = l ∧
        ((∃ d, findDate cells.reverse = some d ∧ p.date = d) ∨
          (findDate cells.reverse = none ∧ p.date = today)) := by
  by_cases h3 : cells.length ≥ 3
  · simp only [parseRow] at h
    rw [if_pos h3] at h
    refine ⟨h3, ?_⟩
    cases hft : findTitleLink cells with
    | none => rw [hft] at h; exact absurd h (by simp)
    | some tl =>
      rcases tl with ⟨t, l⟩
      rw [hft] at h
      cases hfd : findDate cells.reverse with
      | none =>
        rw [hfd] at h
        simp only [Option.some.injEq] at h
        exact ⟨t, l, rfl, by rw [← h], by rw [← h], Or.inr ⟨rfl, by rw [← h]⟩⟩
      | some d =>
        rw [hfd] at h
        simp only [Option.some.injEq] at h
        exact ⟨t, l, rfl, by rw [← h], by rw [← h],
          Or.inl ⟨d, rfl, by rw [← h]⟩⟩
  · rw [parseRow_short today cells (by omega)] at h
    exact absurd h (by simp)

theorem titleCellOk_iff (c : Cell) : titleCellOk c = true ↔ TitleQual c := by
  simp [titleCellOk, TitleQual, Bool.and_eq_true, decide_eq_true_iff,
    Bool.not_eq_true']

theorem dateCellOk_iff (c : Cell) : dateCellOk c = true ↔ DateQual c := by
  simp [dateCellOk, DateQual, Bool.and_eq_true, Bool.or_eq_true,
    decide_eq_true_iff, or_assoc]

theorem titleCellOk_false_iff (c : Cell) :
    titleCellOk c = false ↔ ¬TitleQual c := by
  rw [← titleCellOk_iff]
  cases titleCellOk c <;> simp

theorem dateCellOk_false_iff (c : Cell) :
    dateCellOk c = false ↔ ¬DateQual c := by
  rw [← dateCellOk_iff]
  cases dateCellOk c <;> simp

theorem strStarts_base_append (s : String) :
    strStarts (baseUrl ++ s) "http" = true := by
  rcases s with ⟨l⟩
  rfl

theorem linkFromCell_cases (c : Cell) :
    linkFromCell c = "" ∨ strStarts (linkFromCell c) "http" = true := by
  rcases c with ⟨txt, href⟩
  cases href with
  | none => exact Or.inl rfl
  | some h =>
    by_cases he : h = ""
    · simp [linkFromCell, he]
    · by_cases hs : strStarts h "http" = true
      · have hl : linkFromCell ⟨txt, some h⟩ = h := by
          simp only [linkFromCell]
          rw [if_pos he, if_pos hs]
        rw [hl]
        exact Or.inr hs
      · have hl : linkFromCell ⟨txt, some h⟩ = baseUrl ++ h := by
          simp only [linkFromCell]
          rw [if_pos he, if_neg hs]
        rw [hl]
        exact Or.inr (strStarts_base_append h)

theorem linkFromCell_of_href (c : Cell) (href : String)
    (hh : c.href = some href) (hne : href ≠ "") :
    linkFromCell c =
      if strStarts href "http" = true then href else baseUrl ++ href := by
  rcases c with ⟨txt, o⟩
  have ho : o = some href := hh
  subst ho
  simp only [linkFromCell]
  rw [if_pos hne]

/-! ### Claim theorems: keyword matching -/

/-- C3: for every title, `check_keywords` returns `(true, k)` exactly when
`k` is the first keyword in the configured order whose lowercased form is a
substring of the lowercased title, returns `(false, none)` exactly when no
keyword matches, and every result has one of these two shapes (so at most
one keyword is ever reported). -/
theorem check_keywords_first_match (title : String) :
    (∀ k, check_keywords title = (true, some k) ↔
      ∃ l₁ l₂, keywords = l₁ ++ k :: l₂ ∧ kwMatches title k = true ∧
        ∀ k' ∈ l₁, kwMatches title k' = false) ∧
    (check_keywords title = (false, none) ↔
      ∀ k ∈ keywords, kwMatches title k = false) ∧
    (check_keywords title = (false, none) ∨
      ∃ k, check_keywords title = (true, some k)) := by
  refine ⟨?_, ?_, ?_⟩
  · intro k
    exact checkKeywordsAux_eq_true (lowerString title) keywords k
  · exact checkKeywordsAux_eq_false (lowerString title) keywords
  · exact checkKeywordsAux_shape (lowerString title) keywords

/-- Concrete run of C3's theorem: no configured keyword occurs in
`"일반 공지사항"`, and `check_keywords` reports `(false, none)` on it. -/
theorem check_keywords_first_match_witness :
    check_keywords "일반 공지사항" = (false, none) :=
  (check_keywords_first_match "일반 공지사항").2.1.mpr (by decide)

/-- C4 as stated is false: on `"오늘의 장애인 집회 관련 공지"` the code does
not report the keyword `"집회"`, because `"장애인"` precedes it in
`self.keywords` and also matches. -/
theorem check_keywords_demo_counterexample :
    check_keywords "오늘의 장애인 집회 관련 공지" ≠ (true, some "집회") := by
  decide

/-- C4 amended: against the configured keyword list,
`check_keywords("오늘의 장애인 집회 관련 공지")` returns `(true, "장애인")`
(the first matching keyword in list order), and
`check_keywords("일반 공지사항")` returns `(false, none)`. -/
theorem check_keywords_demo_amended :
    check_keywords "오늘의 장애인 집회 관련 공지" = (true, some "장애인") ∧
    check_keywords "일반 공지사항" = (false, none) := by
  decide

/-! ### Claim theorems: parser -/

/-- C5: a row with fewer than 3 cells yields no post; a row with no
qualifying title cell (stripped text longer than 5 characters, not purely
numeric) yields no post; and when a post is emitted its title is the
stripped text of the first qualifying cell in document order, with the link
taken from that cell's anchor, prefixed with the site origin when the href
does not start with `"http"`. -/
theorem parse_row_title_claim (today : String) (cells : List Cell) :
    (cells.length < 3 → parseRow today cells = none) ∧
    ((∀ c ∈ cells, ¬TitleQual c) → parseRow today cells = none) ∧
    (∀ p, parseRow today cells = some p →
      ∃ l₁ c l₂, cells = l₁ ++ c :: l₂ ∧ TitleQual c ∧
        (∀ c' ∈ l₁, ¬TitleQual c') ∧ p.title = cellText c ∧
        p.link = linkFromCell c ∧
        ∀ href, c.href = some href → href ≠ "" →
          p.link = if strStarts href "http" = true then href
            else baseUrl ++ href) := by
  refine ⟨parseRow_short today cells, ?_, ?_⟩
  · intro hall
    apply parseRow_noTitle
    rw [findTitleLink_eq_none]
    intro c hc
    rw [titleCellOk_false_iff]
    exact hall c hc
  · intro p hp
    obtain ⟨h3, t, l, hft, hpt, hpl, -⟩ := parseRow_some_elim today cells p hp
    obtain ⟨l₁, c, l₂, hcells, hok, hall, ht, hl⟩ :=
      (findTitleLink_eq_some cells t l).mp hft
    refine ⟨l₁, c, l₂, hcells, (titleCellOk_iff c).mp hok,
      fun c' hc' => (titleCellOk_false_iff c').mp (hall c' hc'),
      by rw [hpt, ht], by rw [hpl, hl], ?_⟩
    intro href hh hne
    rw [hpl, hl]
    exact linkFromCell_of_href c href hh hne

/-- Concrete run of C5's theorem: a 2-cell row is skipped. -/
theorem parse_row_title_claim_witness :
    parseRow "2024-05-01" [⟨"1", none⟩, ⟨"공지", none⟩] = none :=
  (parse_row_title_claim "2024-05-01" [⟨"1", none⟩, ⟨"공지", none⟩]).1
    (by decide)

/-- C6: when a row yields a post, its date is the stripped text of the
first cell in reverse document order containing one of `-` `.` `/` with
length at least 8, defaulting to today's date string when no cell
qualifies; and the row `["1", "장애인 집회시위 안내", "2024-05-01"]` yields
`Post("장애인 집회시위 안내", "2024-05-01", "")`. -/
theorem parse_row_date_claim :
    (∀ today cells p, parseRow today cells = some p →
      (∃ l₁ c l₂, cells.reverse = l₁ ++ c :: l₂ ∧ DateQual c ∧
        (∀ c' ∈ l₁, ¬DateQual c') ∧ p.date = cellText c) ∨
      ((∀ c ∈ cells, ¬DateQual c) ∧ p.date = today)) ∧
    (∀ today, parseRow today
      [⟨"1", none⟩, ⟨"장애인 집회시위 안내", none⟩, ⟨"2024-05-01", none⟩] =
      some ⟨"장애인 집회시위 안내", "2024-05-01", ""⟩) := by
  constructor
  · intro today cells p hp
    obtain ⟨h3, t, l, hft, hpt, hpl, hdate⟩ :=
      parseRow_some_elim today cells p hp
    rcases hdate with ⟨d, hfd, hpd⟩ | ⟨hfd, hpd⟩
    · left
      obtain ⟨l₁, c, l₂, hrev, hok, hall, hd⟩ :=
        (findDate_eq_some cells.reverse d).mp hfd
      exact ⟨l₁, c, l₂, hrev, (dateCellOk_iff c).mp hok,
        fun c' hc' => (dateCellOk_false_iff c').mp (hall c' hc'),
        by rw [hpd, hd]⟩
    · right
      refine ⟨?_, hpd⟩
      intro c hc
      exact (dateCellOk_false_iff c).mp
        ((findDate_eq_none cells.reverse).mp hfd c (List.mem_reverse.mpr hc))
  · intro today
    rfl

/-- Concrete run of C6's theorem at the example row of the claim. -/
theorem parse_row_date_claim_witness :
    (∃ l₁ c l₂,
      ([⟨"1", none⟩, ⟨"장애인 집회시위 안내", none⟩,
        ⟨"2024-05-01", none⟩] : List Cell).reverse = l₁ ++ c :: l₂ ∧
      DateQual c ∧ (∀ c' ∈ l₁, ¬DateQual c') ∧
      (Post.mk "장애인 집회시위 안내" "2024-05-01" "").date = cellText c) ∨
    ((∀ c ∈ ([⟨"1", none⟩, ⟨"장애인 집회시위 안내", none⟩,
        ⟨"2024-05-01", none⟩] : List Cell), ¬DateQual c) ∧
      (Post.mk "장애인 집회시위 안내" "2024-05-01" "").date = "2024-06-07") :=
  parse_row_date_claim.1 "2024-06-07"
    [⟨"1", none⟩, ⟨"장애인 집회시위 안내", none⟩, ⟨"2024-05-01", none⟩]
    ⟨"장애인 집회시위 안내", "2024-05-01", ""⟩ (by decide)

/-- C10: every post emitted by the parser has a nonempty, longer-than-5,
non-numeric title; a nonempty date that is either a qualifying cell text
(length ≥ 8 with a `-` `.` `/` separator) or today's date string; and a
link that is empty or starts with `"http"`. -/
theorem parse_board_posts_invariant (today : String) (rows : List (List Cell))
    (p : Post) (hp : p ∈ parse_board_posts today rows) (htoday : today ≠ "") :
    p.title ≠ "" ∧ p.title.length > 5 ∧ isDigitString p.title = false ∧
    p.date ≠ "" ∧
    ((p.date.length ≥ 8 ∧
      (strHasChar p.date '-' = true ∨ strHasChar p.date '.' = true ∨
        strHasChar p.date '/' = true)) ∨ p.date = today) ∧
    (p.link = "" ∨ strStarts p.link "http" = true) := by
  obtain ⟨cells, hcells, hrow⟩ := List.mem_filterMap.mp hp
  obtain ⟨h3, t, l, hft, hpt, hpl, hdate⟩ := parseRow_some_elim today cells p hrow
  obtain ⟨l₁, c, l₂, -, hok, -, ht, hl⟩ := (findTitleLink_eq_some cells t l).mp hft
  obtain ⟨hlen, hdig⟩ := (titleCellOk_iff c).mp hok
  have htitle : p.title = cellText c := by rw [hpt, ht]
  have hlink : p.link = linkFromCell c := by rw [hpl, hl]
  refine ⟨?_, by rw [htitle]; exact hlen, by rw [htitle]; exact hdig, ?_, ?_, ?_⟩
  · intro hemp
    rw [hemp] at htitle
    have : (cellText c).length = 0 := by rw [← htitle]; rfl
    omega
  · rcases hdate with ⟨d, hfd, hpd⟩ | ⟨-, hpd⟩
    · obtain ⟨-, c', -, -, hok', -, hd⟩ := (findDate_eq_some cells.reverse d).mp hfd
      obtain ⟨-, hlen8⟩ := (dateCellOk_iff c').mp hok'
      intro hemp
      rw [hemp] at hpd
      have : (cellText c').length = 0 := by rw [← hd, ← hpd]; rfl
      omega
    · rw [hpd]; exact htoday
  · rcases hdate with ⟨d, hfd, hpd⟩ | ⟨-, hpd⟩
    · obtain ⟨-, c', -, -, hok', -, hd⟩ := (findDate_eq_some cells.reverse d).mp hfd
      obtain ⟨hsep, hlen8⟩ := (dateCellOk_iff c').mp hok'
      left
      rw [hpd, hd]
      exact ⟨hlen8, hsep⟩
    · right; exact hpd
  · rw [hlink]
    exact linkFromCell_cases c

/-- Concrete run of C10's theorem on a one-row board. -/
theorem parse_board_posts_invariant_witness :
    (Post.mk "장애인 집회시위 안내" "2024-05-01" "").title ≠ "" ∧
    (Post.mk "장애인 집회시위 안내" "2024-05-01" "").title.length > 5 ∧
    isDigitString (Post.mk "장애인 집회시위 안내" "2024-05-01" "").title = false ∧
    (Post.mk "장애인 집회시위 안내" "2024-05-01" "").date ≠ "" ∧
    (((Post.mk "장애인 집회시위 안내" "2024-05-01" "").date.length ≥ 8 ∧
      (strHasChar (Post.mk "장애인 집회시위 안내" "2024-05-01" "").date '-' = true ∨
        strHasChar (Post.mk "장애인 집회시위 안내" "2024-05-01" "").date '.' = true ∨
        strHasChar (Post.mk "장애인 집회시위 안내" "2024-05-01" "").date '/' = true)) ∨
      (Post.mk "장애인 집회시위 안내" "2024-05-01" "").date = "2024-06-07") ∧
    ((Post.mk "장애인 집회시위 안내" "2024-05-01" "").link = "" ∨
      strStarts (Post.mk "장애인 집회시위 안내" "2024-05-01" "").link "http" = true) :=
  parse_board_posts_invariant "2024-06-07"
    [[⟨"1", none⟩, ⟨"장애인 집회시위 안내", none⟩, ⟨"2024-05-01", none⟩]]
    ⟨"장애인 집회시위 안내", "2024-05-01", ""⟩ (by decide) (by decide)

/-! ### The filtering loop and the driver -/

theorem processPosts_cons_notToday (today : String)
    (webhook : Post → String → HttpResult) (q : Post) (rest : List Post)
    (h : is_today_post today q.date = false) :
    processPosts today webhook (q :: rest) = processPosts today webhook rest := by
  simp only [processPosts]
  rw [if_neg (by simp [h])]

theorem processPosts_cons_match (today : String)
    (webhook : Post → String → HttpResult) (q : Post) (rest : List Post)
    (kw : String) (hq : is_today_post today q.date = true)
    (hck : check_keywords q.title = (true, some kw)) :
    processPosts today webhook (q :: rest) =
      ⟨q :: (processPosts today webhook rest).matcherCalls,
        (q, kw) :: (processPosts today webhook rest).webhookCalls,
        (processPosts today webhook rest).todayPostsCount + 1,
        (if send_webhook q kw (webhook q kw) then 1 else 0) +
          (processPosts today webhook rest).notificationsSent⟩ := by
  simp only [processPosts]
  rw [if_pos hq, hck]

theorem processPosts_cons_nomatch (today : String)
    (webhook : Post → String → HttpResult) (q : Post) (rest : List Post)
    (hq : is_today_post today q.date = true)
    (hck : check_keywords q.title = (false, none)) :
    processPosts today webhook (q :: rest) =
      ⟨q :: (processPosts today webhook rest).matcherCalls,
        (processPosts today webhook rest).webhookCalls,
        (processPosts today webhook rest).todayPostsCount + 1,
        (processPosts today webhook rest).notificationsSent⟩ := by
  simp only [processPosts]
  rw [if_pos hq, hck]

theorem processPosts_calls (today : String)
    (webhook : Post → String → HttpResult) (posts : List Post) :
    (∀ p, p ∈ (processPosts today webhook posts).matcherCalls →
      p ∈ posts ∧ is_today_post today p.date = true) ∧
    (∀ p kw, (p, kw) ∈ (processPosts today webhook posts).webhookCalls →
      p ∈ posts ∧ is_today_post today p.date = true ∧
        check_keywords p.title = (true, some kw)) := by
  induction posts with
  | nil =>
    constructor
    · intro p hp
      exact absurd hp (by simp [processPosts, noRun])
    · intro p kw hp
      exact absurd hp (by simp [processPosts, noRun])
  | cons q rest ih =>
    by_cases hq : is_today_post today q.date = true
    · rcases checkKeywordsAux_shape (lowerString q.title) keywords with h0 |
        ⟨kw₀, h0⟩
      · have hck : check_keywords q.title = (false, none) := h0
        rw [processPosts_cons_nomatch today webhook q rest hq hck]
        constructor
        · intro p hp
          rcases List.mem_cons.mp hp with rfl | hp
          · exact ⟨List.mem_cons_self _ _, hq⟩
          · obtain ⟨hmem, hT⟩ := ih.1 p hp
            exact ⟨List.mem_cons_of_mem _ hmem, hT⟩
        · intro p kw hp
          obtain ⟨hmem, hT, hC⟩ := ih.2 p kw hp
          exact ⟨List.mem_cons_of_mem _ hmem, hT, hC⟩
      · have hck : check_keywords q.title = (true, some kw₀) := h0
        rw [processPosts_cons_match today webhook q rest kw₀ hq hck]
        constructor
        · intro p hp
          rcases List.mem_cons.mp hp with rfl | hp
          · exact ⟨List.mem_cons_self _ _, hq⟩
          · obtain ⟨hmem, hT⟩ := ih.1 p hp
            exact ⟨List.mem_cons_of_mem _ hmem, hT⟩
        · intro p kw hp
          rcases List.mem_cons.mp hp with heq | hp
          · have hpq : p = q ∧ kw = kw₀ := by
              simpa [Prod.mk.injEq] using heq
            rw [hpq.1, hpq.2]
            exact ⟨List.mem_cons_self _ _, hq, hck⟩
          · obtain ⟨hmem, hT, hC⟩ := ih.2 p kw hp
            exact ⟨List.mem_cons_of_mem _ hmem, hT, hC⟩
    · have hq' : is_today_post today q.date = false := by simpa using hq
      rw [processPosts_cons_notToday today webhook q rest hq']
      constructor
      · intro p hp
        obtain ⟨hmem, hT⟩ := ih.1 p hp
        exact ⟨List.mem_cons_of_mem _ hmem, hT⟩
      · intro p kw hp
        obtain ⟨hmem, hT, hC⟩ := ih.2 p kw hp
        exact ⟨List.mem_cons_of_mem _ hmem, hT, hC⟩

theorem monitor_posts_fetch_fail (today : String) (fetched : HttpResult)
    (extractRows : String → List (List Cell))
    (webhook : Post → String → HttpResult)
    (hf : fetch_board_content fetched = none) :
    monitor_posts today fetched extractRows webhook = noRun := by
  simp [monitor_posts, hf]

theorem monitor_posts_empty_html (today : String) (fetched : HttpResult)
    (extractRows : String → List (List Cell))
    (webhook : Post → String → HttpResult)
    (hf : fetch_board_content fetched = some "") :
    monitor_posts today fetched extractRows webhook = noRun := by
  simp [monitor_posts, hf]

theorem monitor_posts_no_posts (today : String) (fetched : HttpResult)
    (extractRows : String → List (List Cell))
    (webhook : Post → String → HttpResult) (html : String)
    (hf : fetch_board_content fetched = some html)
    (hpe : parse_board_posts today (extractRows html) = []) :
    monitor_posts today fetched extractRows webhook = noRun := by
  by_cases he : html = ""
  · exact monitor_posts_empty_html today fetched extractRows webhook (he ▸ hf)
  · simp [monitor_posts, hf, he, hpe]

theorem monitor_posts_run (today : String) (fetched : HttpResult)
    (extractRows : String → List (List Cell))
    (webhook : Post → String → HttpResult) (html : String)
    (hf : fetch_board_content fetched = some html) (he : html ≠ "")
    (hne : (parse_board_posts today (extractRows html)).isEmpty = false) :
    monitor_posts today fetched extractRows webhook =
      processPosts today webhook (parse_board_posts today (extractRows html)) := by
  simp only [monitor_posts, hf]
  rw [if_neg he, if_neg (by simp [hne])]

/-! ### Claim theorems: pipeline and driver -/

/-- C1: in any run of `monitor_posts`, a webhook POST is issued for a post
only when `is_today_post` holds of its date and `check_keywords` reports a
match on its title; and every post handed to the keyword matcher passed
the today check first. -/
theorem monitor_posts_filter_claim (today : String) (fetched : HttpResult)
    (extractRows : String → List (List Cell))
    (webhook : Post → String → HttpResult) :
    (∀ p kw,
      (p, kw) ∈ (monitor_posts today fetched extractRows webhook).webhookCalls →
        is_today_post today p.date = true ∧
        check_keywords p.title = (true, some kw)) ∧
    (∀ p, p ∈ (monitor_posts today fetched extractRows webhook).matcherCalls →
      is_today_post today p.date = true) := by
  cases hf : fetch_board_content fetched with
  | none =>
    rw [monitor_posts_fetch_fail today fetched extractRows webhook hf]
    constructor
    · intro p kw hp; exact absurd hp (by simp [noRun])
    · intro p hp; exact absurd hp (by simp [noRun])
  | some html =>
    by_cases he : html = ""
    · rw [monitor_posts_empty_html today fetched extractRows webhook (he ▸ hf)]
      constructor
      · intro p kw hp; exact absurd hp (by simp [noRun])
      · intro p hp; exact absurd hp (by simp [noRun])
    · by_cases hpe : (parse_board_posts today (extractRows html)).isEmpty = true
      · rw [monitor_posts_no_posts today fetched extractRows webhook html hf
          (List.isEmpty_iff.mp hpe)]
        constructor
        · intro p kw hp; exact absurd hp (by simp [noRun])
        · intro p hp; exact absurd hp (by simp [noRun])
      · rw [monitor_posts_run today fetched extractRows webhook html hf he
          (by simpa using hpe)]
        constructor
        · intro p kw hp
          obtain ⟨-, hT, hC⟩ := (processPosts_calls today webhook _).2 p kw hp
          exact ⟨hT, hC⟩
        · intro p hp
          exact ((processPosts_calls today webhook _).1 p hp).2

/-- Concrete run of C1's theorem: a 200 fetch whose one row is dated today
and matches the keyword `"장애인"`. -/
theorem monitor_posts_filter_claim_witness :
    is_today_post "2024-05-01"
        (Post.mk "장애인 집회 안내드립니다" "2024-05-01" "").date = true ∧
    check_keywords (Post.mk "장애인 집회 안내드립니다" "2024-05-01" "").title =
      (true, some "장애인") :=
  (monitor_posts_filter_claim "2024-05-01" (.response 200 "x")
    (fun _ => [[⟨"1", none⟩, ⟨"장애인 집회 안내드립니다", none⟩,
      ⟨"2024-05-01", none⟩]])
    (fun _ _ => .response 200 "")).1
    ⟨"장애인 집회 안내드립니다", "2024-05-01", ""⟩ "장애인" (by decide)

/-- C7: `send_webhook` returns true exactly on HTTP status 200; any other
status and any transport exception give false. -/
theorem send_webhook_claim (post : Post) (kw : String) :
    (∀ status body,
      (send_webhook post kw (HttpResult.response status body) = true ↔
        status = 200)) ∧
    send_webhook post kw HttpResult.exn = false := by
  constructor
  · intro status body
    simp [send_webhook]
  · rfl

/-- C8: when the fetch yields no content, or parsing yields no posts, the
run makes zero webhook calls, counts zero notifications, and the process
still finishes with exit code 0. -/
theorem monitor_posts_empty_claim (today : String) (fetched : HttpResult)
    (extractRows : String → List (List Cell))
    (webhook : Post → String → HttpResult) (url : String) (hurl : url ≠ "")
    (h : fetch_board_content fetched = none ∨
      ∀ html, fetch_board_content fetched = some html →
        parse_board_posts today (extractRows html) = []) :
    (monitor_posts today fetched extractRows webhook).webhookCalls = [] ∧
    (monitor_posts today fetched extractRows webhook).notificationsSent = 0 ∧
    (mainRun today (some url) fetched extractRows webhook).exitCode = 0 := by
  have hexit :
      (mainRun today (some url) fetched extractRows webhook).exitCode = 0 := by
    simp only [mainRun]
    rw [if_neg hurl]
  have hnr : monitor_posts today fetched extractRows webhook = noRun := by
    rcases h with hf | hp
    · exact monitor_posts_fetch_fail today fetched extractRows webhook hf
    · cases hf : fetch_board_content fetched with
      | none => exact monitor_posts_fetch_fail today fetched extractRows webhook hf
      | some html =>
        exact monitor_posts_no_posts today fetched extractRows webhook html hf
          (hp html hf)
  rw [hnr]
  exact ⟨rfl, rfl, hexit⟩

/-- Concrete run of C8's theorem: an HTTP 500 fetch leads to zero webhook
calls and exit code 0. -/
theorem monitor_posts_empty_claim_witness :
    (monitor_posts "2024-05-01" (HttpResult.response 500 "err")
      (fun _ => []) (fun _ _ => HttpResult.exn)).webhookCalls = [] ∧
    (monitor_posts "2024-05-01" (HttpResult.response 500 "err")
      (fun _ => []) (fun _ _ => HttpResult.exn)).notificationsSent = 0 ∧
    (mainRun "2024-05-01" (some "https://hook.example") (HttpResult.response 500 "err")
      (fun _ => []) (fun _ _ => HttpResult.exn)).exitCode = 0 :=
  monitor_posts_empty_claim "2024-05-01" (HttpResult.response 500 "err")
    (fun _ => []) (fun _ _ => HttpResult.exn) "https://hook.example"
    (by decide) (Or.inl (by decide))

/-- C9: with the webhook URL environment variable unset the process exits
with code 1 and the monitor (hence any network call) never runs; with a
nonempty URL every completed run exits with code 0, whatever the fetch,
parse and webhook outcomes. -/
theorem mainRun_exit_claim (today : String) (fetched : HttpResult)
    (extractRows : String → List (List Cell))
    (webhook : Post → String → HttpResult) :
    ((mainRun today none fetched extractRows webhook).exitCode = 1 ∧
      (mainRun today none fetched extractRows webhook).monitorOutcome = none) ∧
    (∀ url, url ≠ "" →
      (mainRun today (some url) fetched extractRows webhook).exitCode = 0) := by
  refine ⟨⟨rfl, rfl⟩, ?_⟩
  intro url hurl
  simp only [mainRun]
  rw [if_neg hurl]

/-- Concrete run of C9's theorem at a set and an unset environment value. -/
theorem mainRun_exit_claim_witness :
    (mainRun "2024-05-01" (some "https://hook.example") HttpResult.exn
      (fun _ => []) (fun _ _ => HttpResult.exn)).exitCode = 0 :=
  (mainRun_exit_claim "2024-05-01" HttpResult.exn (fun _ => [])
    (fun _ _ => HttpResult.exn)).2 "https://hook.example" (by decide)

/-! ### Claim theorems: the today filter -/

theorem isDateFormat_elim (s : String) (hf : isDateFormat s = true) :
    ∃ a b c d e f g h : Char,
      s.data = [a, b, c, d, '-', e, f, '-', g, h] ∧
      a.isDigit = true ∧ b.isDigit = true ∧ c.isDigit = true ∧
      d.isDigit = true ∧ e.isDigit = true ∧ f.isDigit = true ∧
      g.isDigit = true ∧ h.isDigit = true := by
  rcases s with ⟨l⟩
  rcases l with _ | ⟨a, _ | ⟨b, _ | ⟨c, _ | ⟨d, _ | ⟨s1, _ | ⟨e, _ | ⟨f, _ |
    ⟨s2, _ | ⟨g, _ | ⟨h, _ | ⟨x, rest⟩⟩⟩⟩⟩⟩⟩⟩⟩⟩⟩
  · exact Bool.noConfusion hf
  · exact Bool.noConfusion hf
  · exact Bool.noConfusion hf
  · exact Bool.noConfusion hf
  · exact Bool.noConfusion hf
  · exact Bool.noConfusion hf
  · exact Bool.noConfusion hf
  · exact Bool.noConfusion hf
  · exact Bool.noConfusion hf
  · exact Bool.noConfusion hf
  · simp only [isDateFormat, Bool.and_eq_true, beq_iff_eq] at hf
    obtain ⟨⟨⟨⟨⟨⟨⟨⟨⟨ha, hb⟩, hc⟩, hd⟩, hs1⟩, he⟩, hf2⟩, hs2⟩, hg⟩, hh⟩ := hf
    exact ⟨a, b, c, d, e, f, g, h, by rw [hs1, hs2], ha, hb, hc, hd, he, hf2,
      hg, hh⟩
  · exact Bool.noConfusion hf

/-- C2: `is_today_post(date_str)` is true exactly when today's `YYYY-MM-DD`
string occurs as a substring of `date_str` (the `except` branch of the
source is unreachable for the substring test); and whenever `today` has the
`YYYY-MM-DD` shape, `is_today_post(today, "2024-05-01 공지")` is true exactly
when `today` is `"2024-05-01"`. -/
theorem is_today_post_claim (today date_str : String) :
    (is_today_post today date_str = true ↔
      ∃ l₁ l₂, date_str.data = l₁ ++ today.data ++ l₂) ∧
    (isDateFormat today = true →
      (is_today_post today "2024-05-01 공지" = true ↔ today = "2024-05-01")) := by
  constructor
  · exact strIncludes_iff date_str today
  · intro hfmt
    obtain ⟨a, b, c, d, e, f, g, h, hdata, ha, hb, hc, hd, he, hf2, hg, hh⟩ :=
      isDateFormat_elim today hfmt
    constructor
    · intro hin
      rcases today with ⟨l⟩
      have hl : l = [a, b, c, d, '-', e, f, '-', g, h] := hdata
      subst hl
      have hin' : containsList [a, b, c, d, '-', e, f, '-', g, h]
          ['2', '0', '2', '4', '-', '0', '5', '-', '0', '1', ' ', '공', '지'] =
            true := hin
      simp only [containsList, List.isPrefixOf, Bool.or_eq_true,
        Bool.and_eq_true, beq_iff_eq, List.isEmpty] at hin'
      rcases hin' with h0 | hbad
      · obtain ⟨rfl, rfl, rfl, rfl, -, rfl, rfl, -, rfl, rfl, -⟩ := h0
        rfl
      · exfalso
        simp at hbad
    · intro heq
      rw [heq]
      decide

/-- Concrete run of C2's theorem at the system date of the spec's example. -/
theorem is_today_post_claim_witness :
    is_today_post "2024-05-01" "2024-05-01 공지" = true ↔
      ("2024-05-01" : String) = "2024-05-01" :=
  (is_today_post_claim "2024-05-01" "다른 문자열").2 (by decide)
